import Mathlib

/-! Shallow embedding of the openpi-comet batch-trial harness: the trial
runner `scripts/run_zql_batch.py` and the result aggregator
`scripts/parse_zql_results.py`.

Modelling conventions: log text and file names are Lean strings (searched as
`List Char`); Python floats are modelled as rationals (the only operations
performed on them are construction from decimal text, division of small
integer counts, and sign comparison); each regular-expression search is
modelled by a position-by-position matcher specialised to the concrete
pattern the code uses. All three patterns are backtracking-free: in
`behavior_log_(\d+)_(\d+)\.log`, `Total success trials:\s*(\d+)`,
`Total trials:\s*(\d+)` and `Success rate:\s*([\d.]+)` every greedy atom is
followed by an atom over a disjoint character class, so greedy matching with
no backtracking computes exactly the leftmost regex match. File-system
reading is represented by passing each file's read outcome
(`Except errorMessage content`) to the functions that consume it. -/

/-- digitsVal is the decimal value of a digit string, most significant digit
first: the model of Python `int()` applied to a `\d+` match. -/
def digitsVal (ds : List Char) : Nat :=
  ds.foldl (fun a c => 10 * a + (c.toNat - 48)) 0

/-- natDigits is the decimal rendering of a natural number: the model of
Python `str()` / f-string interpolation of a non-negative int (no sign, no
leading zeros). -/
def natDigits (n : Nat) : List Char :=
  if n < 10 then [Char.ofNat (48 + n)]
  else natDigits (n / 10) ++ [Char.ofNat (48 + n % 10)]
termination_by n
decreasing_by simp_wf; omega

/-- String form of natDigits. -/
def natStr (n : Nat) : String := String.mk (natDigits n)

/-- isSpaceCh models Python's `\s` on the ASCII characters that occur in the
logs. -/
def isSpaceCh (c : Char) : Bool :=
  c = ' ' || c = '\t' || c = '\n' || c = '\r' || c = '\x0b' || c = '\x0c'

/-- isRateCh is the character class `[\d.]` of the success-rate pattern. -/
def isRateCh (c : Char) : Bool := c.isDigit || c = '.'

/-- stripLit matches a literal string at the head of the input and returns
the remainder on success. -/
def stripLit : List Char → List Char → Option (List Char)
  | [], s => some s
  | _ :: _, [] => none
  | l :: ls, c :: cs => if c = l then stripLit ls cs else none

/-- matchCountAt matches `LIT\s*(\d+)` at the start of `s` and returns the
integer value of the digit group. -/
def matchCountAt (lit s : List Char) : Option Nat :=
  match stripLit lit s with
  | none => none
  | some r1 =>
    let ds := (r1.dropWhile isSpaceCh).takeWhile Char.isDigit
    if ds.isEmpty then none else some (digitsVal ds)

/-- searchCount models `re.search` for `LIT\s*(\d+)`: the match at the
leftmost position where the whole pattern matches, with the digit group
converted by `int()`. -/
def searchCount (lit : List Char) : List Char → Option Nat
  | [] => matchCountAt lit []
  | c :: rest =>
    match matchCountAt lit (c :: rest) with
    | some v => some v
    | none => searchCount lit rest

/-- matchRateAt matches `LIT\s*([\d.]+)` at the start of `s` and returns the
raw text of the group (its conversion by `float()` can fail and is kept
separate). -/
def matchRateAt (lit s : List Char) : Option (List Char) :=
  match stripLit lit s with
  | none => none
  | some r1 =>
    let ds := (r1.dropWhile isSpaceCh).takeWhile isRateCh
    if ds.isEmpty then none else some ds

/-- searchRate models `re.search` for `LIT\s*([\d.]+)`. -/
def searchRate (lit : List Char) : List Char → Option (List Char)
  | [] => matchRateAt lit []
  | c :: rest =>
    match matchRateAt lit (c :: rest) with
    | some v => some v
    | none => searchRate lit rest

/-- The literal part of the file-name pattern. -/
def fileNameLit : List Char := "behavior_log_".toList

/-- The trailing literal `\.log` of the file-name pattern. -/
def dotLogLit : List Char := ".log".toList

/-- matchFileNameAt matches `behavior_log_(\d+)_(\d+)\.log` at the start of
`s`, returning the two integer groups (repeat, instance). -/
def matchFileNameAt (s : List Char) : Option (Nat × Nat) :=
  match stripLit fileNameLit s with
  | none => none
  | some r0 =>
    let d1 := r0.takeWhile Char.isDigit
    if d1.isEmpty then none else
    match r0.dropWhile Char.isDigit with
    | '_' :: r2 =>
      let d2 := r2.takeWhile Char.isDigit
      if d2.isEmpty then none else
      match stripLit dotLogLit (r2.dropWhile Char.isDigit) with
      | none => none
      | some _ => some (digitsVal d1, digitsVal d2)
    | _ => none

/-- searchFileName models `re.search` of the file-name pattern over a file's
base name. -/
def searchFileName : List Char → Option (Nat × Nat)
  | [] => matchFileNameAt []
  | c :: rest =>
    match matchFileNameAt (c :: rest) with
    | some v => some v
    | none => searchFileName rest

/-- pyFloatOk: Python `float()` succeeds on a nonempty string over the
characters `[0-9.]` iff the string has at least one digit and at most one
dot. -/
def pyFloatOk (s : List Char) : Bool :=
  s.count '.' ≤ 1 && s.any Char.isDigit

/-- decimalVal is the rational value of a decimal string over `[0-9.]` with
at most one dot: the model of a successful Python `float()` on such input. -/
def decimalVal (s : List Char) : ℚ :=
  let ip := s.takeWhile Char.isDigit
  match s.dropWhile Char.isDigit with
  | '.' :: fp => (digitsVal ip : ℚ) + (digitsVal fp : ℚ) / (10 : ℚ) ^ fp.length
  | _ => (digitsVal ip : ℚ)

/-- LogResult is the record dict returned by parse_log_file. The source's
keys "repeat" and "instance" are Lean keywords and appear here as rep and
inst. -/
structure LogResult where
  rep : Nat
  inst : Nat
  success_trials : Nat
  total_trials : Nat
  success_rate : ℚ
deriving Repr, DecidableEq

/-- Marker literal for the success-trial count. -/
def successTrialsLit : List Char := "Total success trials:".toList

/-- Marker literal for the total-trial count. -/
def totalTrialsLit : List Char := "Total trials:".toList

/-- Marker literal for the success rate. -/
def successRateLit : List Char := "Success rate:".toList

/-- Diagnostic line printed to stderr by parse_log_file's exception
handler. -/
def errorParsingMsg (name msg : String) : String :=
  "Error parsing " ++ name ++ ": " ++ msg

/-- Message of the ValueError raised by Python `float()` on a malformed
number. -/
def floatErrMsg (s : List Char) : String :=
  "could not convert string to float: " ++ "'" ++ String.mk s ++ "'"

/-- parse_log_file: given the file's base name and the outcome of reading
its text (an error message, or the content), return the optional record and
the diagnostic lines the call prints to stderr. Mirrors the source: a read
error is caught by the blanket handler and reported; a base name that does
not match the pattern is a silent skip; a missing marker is a silent skip; a
rate group that `float()` rejects raises inside the handler and is
reported. -/
def parse_log_file (name : String) (readRes : Except String String) :
    Option LogResult × List String :=
  match readRes with
  | .error e => (none, [errorParsingMsg name e])
  | .ok content =>
    match searchFileName name.toList with
    | none => (none, [])
    | some ri =>
      match searchCount successTrialsLit content.toList,
            searchCount totalTrialsLit content.toList,
            searchRate successRateLit content.toList with
      | some st, some tt, some rs =>
        if pyFloatOk rs then
          (some ⟨ri.1, ri.2, st, tt, decimalVal rs⟩, [])
        else
          (none, [errorParsingMsg name (floatErrMsg rs)])
      | _, _, _ => (none, [])

/-- padRight models the format spec `<w`: left-justify, pad to width `w`
with spaces (no truncation). -/
def padRight (s : String) (w : Nat) : String :=
  s ++ String.mk (List.replicate (w - s.length) ' ')

/-- zeroPad left-pads a digit string to width `w` with zeros. -/
def zeroPad (s : String) (w : Nat) : String :=
  String.mk (List.replicate (w - s.length) '0') ++ s

/-- roundHalfEven rounds a rational to the nearest integer, ties to even:
the rounding Python's fixed-point float formatting applies. -/
def roundHalfEven (q : ℚ) : ℤ :=
  if q - ⌊q⌋ < 1 / 2 then ⌊q⌋
  else if 1 / 2 < q - ⌊q⌋ then ⌊q⌋ + 1
  else if ⌊q⌋ % 2 = 0 then ⌊q⌋ else ⌊q⌋ + 1

/-- fmtFixed renders a non-negative rational with exactly `prec` digits
after the point: the model of the format specs `.2f` and `.1f` on the
non-negative rates that occur here (the binary-float rounding step is
modelled at the rational level). -/
def fmtFixed (q : ℚ) (prec : Nat) : String :=
  let m := (roundHalfEven (q * (10 : ℚ) ^ prec)).toNat
  natStr (m / 10 ^ prec) ++ "." ++ zeroPad (natStr (m % 10 ^ prec)) prec

/-- Status label for a record with positive success rate. -/
def successLabel : String := "✓ SUCCESS"

/-- Status label for a record with success rate zero. -/
def failedLabel : String := "✗ FAILED"

/-- status is the label chosen for one record's report line:
`"✓ SUCCESS" if result["success_rate"] > 0 else "✗ FAILED"`. -/
def status (r : LogResult) : String :=
  if r.success_rate > 0 then successLabel else failedLabel

/-- recordLine is one per-record line of the report table. -/
def recordLine (r : LogResult) : String :=
  padRight (natStr r.inst) 10 ++ " " ++ padRight (natStr r.rep) 8 ++ " " ++
  padRight (natStr r.success_trials) 10 ++ " " ++
  padRight (natStr r.total_trials) 8 ++ " " ++
  padRight (fmtFixed r.success_rate 2) 10 ++ " " ++ padRight (status r) 10

/-- sortedInstances: the keys of the by_instance grouping dict, sorted
ascending (`sorted(by_instance.keys())`). -/
def sortedInstances (results : List LogResult) : List Nat :=
  ((results.map (fun r => r.inst)).dedup).mergeSort (fun a b => a ≤ b)

/-- instanceRecords: one instance's records in scan order
(`by_instance[instance]`), stably sorted by repeat. -/
def instanceRecords (results : List LogResult) (i : Nat) : List LogResult :=
  (results.filter (fun r => r.inst = i)).mergeSort (fun a b => a.rep ≤ b.rep)

/-- reportRecords: the records in the order their lines are printed —
instances ascending, repeats ascending within an instance. -/
def reportRecords (results : List LogResult) : List LogResult :=
  (sortedInstances results).flatMap (fun i => instanceRecords results i)

/-- Summed success trials of one instance's records. -/
def instSuccessSum (results : List LogResult) (i : Nat) : Nat :=
  ((results.filter (fun r => r.inst = i)).map (fun r => r.success_trials)).sum

/-- Summed total trials of one instance's records. -/
def instTotalSum (results : List LogResult) (i : Nat) : Nat :=
  ((results.filter (fun r => r.inst = i)).map (fun r => r.total_trials)).sum

/-- instRate: `inst_success / inst_total * 100` guarded by
`if inst_total > 0 ... else 0.0`. -/
def instRate (results : List LogResult) (i : Nat) : ℚ :=
  if instTotalSum results i > 0 then
    (instSuccessSum results i : ℚ) / (instTotalSum results i : ℚ) * 100
  else 0

/-- Summed success trials over all kept records. -/
def totalSuccessSum (results : List LogResult) : Nat :=
  (results.map (fun r => r.success_trials)).sum

/-- Summed total trials over all kept records. -/
def totalTrialsSum (results : List LogResult) : Nat :=
  (results.map (fun r => r.total_trials)).sum

/-- overallRate: `total_success / total_trials * 100` guarded by
`if total_trials > 0 ... else 0.0`. -/
def overallRate (results : List LogResult) : ℚ :=
  if totalTrialsSum results > 0 then
    (totalSuccessSum results : ℚ) / (totalTrialsSum results : ℚ) * 100
  else 0

/-- An 80-character `=` bar. -/
def eqBar : String := String.mk (List.replicate 80 '=')

/-- An 80-character `-` bar. -/
def dashBar : String := String.mk (List.replicate 80 '-')

/-- The column-header line of the report table. -/
def columnsHeader : String :=
  "\n" ++ padRight "Instance" 10 ++ " " ++ padRight "Repeat" 8 ++ " " ++
  padRight "Success" 10 ++ " " ++ padRight "Total" 8 ++ " " ++
  padRight "Rate" 10 ++ " " ++ padRight "Status" 10

/-- One instance's rollup line of the summary section. -/
def instSummaryLine (results : List LogResult) (i : Nat) : String :=
  "  Instance " ++ natStr i ++ ": " ++ natStr (instSuccessSum results i) ++
  "/" ++ natStr (instTotalSum results i) ++ " (" ++
  fmtFixed (instRate results i) 1 ++ "%)"

/-- The grand-total rollup line. -/
def overallLine (results : List LogResult) : String :=
  "\nOverall: " ++ natStr (totalSuccessSum results) ++ "/" ++
  natStr (totalTrialsSum results) ++ " (" ++
  fmtFixed (overallRate results) 1 ++ "%)"

/-- report: the stdout of a successful aggregator run, one list element per
print call, in source order. -/
def report (results : List LogResult) : List String :=
  ["\n" ++ eqBar, "ZQL Evaluation Results Summary", eqBar, columnsHeader,
    dashBar]
  ++ (reportRecords results).map recordLine
  ++ ["\n" ++ dashBar, "Summary Statistics:", dashBar,
      "\nPer-Instance Summary:"]
  ++ (sortedInstances results).map (instSummaryLine results)
  ++ [overallLine results, eqBar ++ "\n"]

/-- globMatch models `Path.glob("behavior_log_*.log")` applied to a base
name: the literal head, the literal tail, and no overlap between them. -/
def globMatch (name : String) : Bool :=
  fileNameLit.isPrefixOf name.toList && dotLogLit.isSuffixOf name.toList
    && decide (fileNameLit.length + dotLogLit.length ≤ name.toList.length)

/-- scanFiles runs parse_log_file over each (base name, read outcome) in
order, keeping records of successful parses and concatenating all stderr
diagnostics: the source's scan loop over `log_files`. -/
def scanFiles : List (String × Except String String) → List LogResult × List String
  | [] => ([], [])
  | f :: rest =>
    let pr := parse_log_file f.1 f.2
    let sr := scanFiles rest
    (pr.1.toList ++ sr.1, pr.2 ++ sr.2)

/-- Observable outcome of one aggregator invocation. -/
structure AggOutput where
  exitCode : Nat
  stdout : List String
  stderr : List String
deriving Repr, DecidableEq

/-- Fatal diagnostic when the glob matches nothing. -/
def noFilesMsg : String := "No log files found in /mnt/public/quanlu"

/-- Fatal diagnostic when no matched file parses. -/
def noValidMsg : String := "No valid results found in log files"

/-- matchedFiles is `sorted(log_dir.glob("behavior_log_*.log"))`: the
directory entries whose base name matches the pattern, ordered by name. -/
def matchedFiles (dirFiles : List (String × Except String String)) :
    List (String × Except String String) :=
  (dirFiles.filter (fun f => globMatch f.1)).mergeSort (fun a b => a.1 ≤ b.1)

/-- aggMain models the aggregator's main(): the directory is given as its
entries' (base name, read outcome) pairs in arbitrary listing order; glob
keeps the matching names and `sorted` orders them by name. -/
def aggMain (dirFiles : List (String × Except String String)) : AggOutput :=
  let log_files := matchedFiles dirFiles
  if log_files.isEmpty then
    ⟨1, [], [noFilesMsg]⟩
  else
    let scanned := scanFiles log_files
    if scanned.1.isEmpty then
      ⟨1, [], scanned.2 ++ [noValidMsg]⟩
    else
      ⟨0, report scanned.1, scanned.2⟩

/-- Path of the evaluated program (opaque external collaborator). -/
def zql_eval_path : String :=
  "/opt/BEHAVIOR-1K/OmniGibson/omnigibson/learning/zql_eval.py"

/-- The fixed base arguments. -/
def base_args : List String :=
  ["policy=websocket", "task.name=turning_on_radio",
   "env_wrapper._target_=behavior.learning.wrappers.RGBWrapper"]

/-- The source's outer repeat count. -/
def outer_repeats : Nat := 4

/-- instance_range is `range(10, 19)`. -/
def instance_range : List Nat := List.range' 10 9

/-- log_path for grid cell (r, i). -/
def log_path (r i : Nat) : String :=
  "/mnt/public/quanlu/behavior_log_" ++ natStr r ++ "_" ++ natStr i

/-- log_file for grid cell (r, i). -/
def log_file (r i : Nat) : String :=
  "/mnt/public/quanlu/behavior_log_" ++ natStr r ++ "_" ++ natStr i ++ ".log"

/-- The base name of log_file, as the aggregator sees it. -/
def logBaseName (r i : Nat) : String :=
  "behavior_log_" ++ natStr r ++ "_" ++ natStr i ++ ".log"

/-- The argument vector of the child process for grid cell (r, i). -/
def cmdList (pyExe : String) (r i : Nat) : List String :=
  [pyExe, zql_eval_path, "--instance_index", natStr i] ++ base_args
    ++ ["log_path=" ++ log_path r i]

/-- The per-repeat progress header. -/
def repeatMsg (r R : Nat) : String :=
  "[run_zql_batch] Repeat " ++ natStr (r + 1) ++ "/" ++ natStr R

/-- The per-cell command echo line. -/
def runningMsg (pyExe : String) (r i : Nat) : String :=
  "[run_zql_batch] Running: CUDA_VISIBLE_DEVICES=0 "
    ++ String.intercalate " " (cmdList pyExe r i)

/-- The per-cell log-destination line. -/
def loggingMsg (r i : Nat) : String :=
  "[run_zql_batch] Logging to: " ++ log_file r i

/-- The failure line carrying the child's exit code. -/
def failedMsg (c : Int) : String :=
  "[run_zql_batch] Command failed with code " ++ toString c ++ ", aborting."

/-- The failure line carrying the failing command's log path. -/
def checkMsg (r i : Nat) : String :=
  "[run_zql_batch] Check log file: " ++ log_file r i

/-- Observable outcome of (part of) a runner execution: the grid cells whose
child was invoked, the lines printed, and the failing child's exit code when
one failed. -/
structure RunOutcome where
  attempted : List (Nat × Nat)
  output : List String
  failCode : Option Int
deriving Repr, DecidableEq

/-- runInstances is the runner's inner loop over the instance collection for
one repeat r: invoke the child per instance (its exit code given by the
environment `ec`), and stop at the first non-zero exit code. -/
def runInstances (ec : Nat → Nat → Int) (pyExe : String) (r : Nat) :
    List Nat → RunOutcome
  | [] => ⟨[], [], none⟩
  | i :: rest =>
    let msgs := [runningMsg pyExe r i, loggingMsg r i]
    if ec r i = 0 then
      let res := runInstances ec pyExe r rest
      ⟨(r, i) :: res.attempted, msgs ++ res.output, res.failCode⟩
    else
      ⟨[(r, i)], msgs ++ [failedMsg (ec r i), checkMsg r i], some (ec r i)⟩

/-- runRepeats is the runner's outer loop over the repeat indices, each
iteration printing its header and running the inner loop; a failure inside
the inner loop aborts the remaining repeats. -/
def runRepeats (ec : Nat → Nat → Int) (pyExe : String) (I : List Nat)
    (R : Nat) : List Nat → RunOutcome
  | [] => ⟨[], [], none⟩
  | r :: rest =>
    let inner := runInstances ec pyExe r I
    match inner.failCode with
    | some c => ⟨inner.attempted, repeatMsg r R :: inner.output, some c⟩
    | none =>
      let outer := runRepeats ec pyExe I R rest
      ⟨inner.attempted ++ outer.attempted,
       (repeatMsg r R :: inner.output) ++ outer.output, outer.failCode⟩

/-- runnerMain models run_zql_batch.main() generalised over the repeat count
R and the instance collection I (the source instantiates R = outer_repeats
and I = instance_range): run the grid and exit with the first failing
child's code, or 0 when both loops complete. -/
def runnerMain (ec : Nat → Nat → Int) (pyExe : String) (R : Nat)
    (I : List Nat) : RunOutcome × Int :=
  let res := runRepeats ec pyExe I R (List.range R)
  (res, res.failCode.getD 0)

/-- run_zql_batch_main is runnerMain at the source's constants. -/
def run_zql_batch_main (ec : Nat → Nat → Int) (pyExe : String) :
    RunOutcome × Int :=
  runnerMain ec pyExe outer_repeats instance_range

/-- gridCells is the spec's iteration contract: repeat indices outermost in
ascending order, instances innermost in the collection's order. -/
def gridCells (R : Nat) (I : List Nat) : List (Nat × Nat) :=
  (List.range R).flatMap (fun r => I.map (fun i => (r, i)))

/-- ratePerSpec is the spec's aggregation formula, stated in its own words:
rate = 100 × success / total, or 0.0 if total is zero. -/
def ratePerSpec (s t : Nat) : ℚ :=
  if t = 0 then 0 else 100 * (s : ℚ) / (t : ℚ)

/-- C3: parsing a log file named behavior_log_2_5.log whose text has the
three marker lines "Total success trials: 8", "Total trials: 10" and
"Success rate: 80.00" yields exactly the record (repeat 2, instance 5,
success_trials 8, total_trials 10, success_rate 80.00). -/
theorem parse_example_log :
    parse_log_file "behavior_log_2_5.log"
      (.ok "Total success trials: 8\nTotal trials: 10\nSuccess rate: 80.00")
      = (some ⟨2, 5, 8, 10, 80⟩, []) := by
  have h1 : parse_log_file "behavior_log_2_5.log"
      (.ok "Total success trials: 8\nTotal trials: 10\nSuccess rate: 80.00")
      = (some ⟨2, 5, 8, 10, decimalVal ['8', '0', '.', '0', '0']⟩, []) := rfl
  have h2 : decimalVal ['8', '0', '.', '0', '0']
      = (digitsVal ['8', '0'] : ℚ) + (digitsVal ['0', '0'] : ℚ) / (10 : ℚ) ^ 2 :=
    rfl
  have h3 : digitsVal ['8', '0'] = 80 := rfl
  have h4 : digitsVal ['0', '0'] = 0 := rfl
  rw [h1, h2, h3, h4]
  norm_num

/-- C10: a readable, convention-named file whose three markers are all
present but whose rate text "1.2.3" is matched by the rate pattern yet
rejected by float() takes the reported-error path: no record and one
diagnostic line for the file, unlike the silent missing-marker skip. -/
theorem parse_malformed_rate_reported :
    parse_log_file "behavior_log_0_1.log"
      (.ok "Total success trials: 1\nTotal trials: 2\nSuccess rate: 1.2.3")
      = (none,
         [errorParsingMsg "behavior_log_0_1.log" (floatErrMsg "1.2.3".toList)])
      := by
  rfl

/-- C8: the status label on a record's report line is the success label iff
the record's success rate is strictly positive, and the failure label
otherwise (rate exactly 0 is labelled failed; any positive rate, whatever
its scale, is labelled success). -/
theorem status_label_iff (r : LogResult) :
    (status r = successLabel ↔ 0 < r.success_rate)
      ∧ (status r = failedLabel ↔ ¬ 0 < r.success_rate) := by
  unfold status
  by_cases h : 0 < r.success_rate <;> simp [h] <;> decide

/-- C2: every per-instance rollup rate and the grand-total rate equal the
spec formula 100 × (summed success trials) / (summed total trials), 0.0 on a
zero denominator; an instance whose records are (success 0, total 0) and
(success 5, total 10) gets exactly 50, not a mean of per-record rates. -/
theorem rates_are_ratio_of_sums (results : List LogResult)
    (_hne : results ≠ []) (i : Nat) :
    instRate results i
        = ratePerSpec (instSuccessSum results i) (instTotalSum results i)
      ∧ overallRate results
        = ratePerSpec (totalSuccessSum results) (totalTrialsSum results)
      ∧ instRate [⟨0, i, 0, 0, 0⟩, ⟨1, i, 5, 10, 50⟩] i = 50 := by
  refine ⟨?_, ?_, ?_⟩
  · unfold instRate ratePerSpec
    rcases Nat.eq_zero_or_pos (instTotalSum results i) with h | h
    · simp [h]
    · rw [if_pos h, if_neg (Nat.pos_iff_ne_zero.mp h)]
      ring
  · unfold overallRate ratePerSpec
    rcases Nat.eq_zero_or_pos (totalTrialsSum results) with h | h
    · simp [h]
    · rw [if_pos h, if_neg (Nat.pos_iff_ne_zero.mp h)]
      ring
  · have hs : instSuccessSum [⟨0, i, 0, 0, 0⟩, ⟨1, i, 5, 10, 50⟩] i = 5 := by
      simp [instSuccessSum]
    have ht : instTotalSum [⟨0, i, 0, 0, 0⟩, ⟨1, i, 5, 10, 50⟩] i = 10 := by
      simp [instTotalSum]
    unfold instRate
    rw [hs, ht]
    norm_num

/-- Witness for C2 at a concrete two-record instance. -/
theorem rates_are_ratio_of_sums_witness :
    instRate [⟨0, 3, 0, 0, 0⟩, ⟨1, 3, 5, 10, 50⟩] 3 = 50 :=
  (rates_are_ratio_of_sums [⟨0, 3, 0, 0, 0⟩, ⟨1, 3, 5, 10, 50⟩]
    (by simp) 3).2.2

/-- C4: a readable file with a convention-matching name but at least one of
the three markers absent yields no record and no diagnostic, whichever
marker is the missing one. -/
theorem missing_marker_silent_skip (name content : String) (ri : Nat × Nat)
    (hname : searchFileName name.toList = some ri)
    (hmiss : searchCount successTrialsLit content.toList = none
      ∨ searchCount totalTrialsLit content.toList = none
      ∨ searchRate successRateLit content.toList = none) :
    parse_log_file name (.ok content) = (none, []) := by
  unfold parse_log_file
  rw [hname]
  cases h1 : searchCount successTrialsLit content.toList <;>
    cases h2 : searchCount totalTrialsLit content.toList <;>
      cases h3 : searchRate successRateLit content.toList <;>
        simp_all

/-- Witness for C4 on a file missing the success-trial marker. -/
theorem missing_marker_silent_skip_witness :
    parse_log_file "behavior_log_0_1.log" (.ok "Total trials: 2")
      = (none, []) :=
  missing_marker_silent_skip "behavior_log_0_1.log" "Total trials: 2" (0, 1)
    (by rfl) (.inl (by rfl))

/-- scanFiles distributes over list append. -/
theorem scanFiles_append (a b : List (String × Except String String)) :
    scanFiles (a ++ b)
      = ((scanFiles a).1 ++ (scanFiles b).1,
         (scanFiles a).2 ++ (scanFiles b).2) := by
  induction a with
  | nil => simp [scanFiles]
  | cons f rest ih => simp [scanFiles, ih]

/-- C5: an unreadable file produces no record and exactly one diagnostic
line naming the file and the exception, and the scan continues over the
remaining files unchanged. -/
theorem read_error_skipped_and_reported
    (pre post : List (String × Except String String)) (name e : String) :
    parse_log_file name (.error e) = (none, [errorParsingMsg name e])
      ∧ (scanFiles (pre ++ (name, .error e) :: post)).1
          = (scanFiles pre).1 ++ (scanFiles post).1
      ∧ (scanFiles (pre ++ (name, .error e) :: post)).2
          = (scanFiles pre).2 ++ errorParsingMsg name e :: (scanFiles post).2
      := by
  refine ⟨rfl, ?_, ?_⟩ <;> simp [scanFiles_append, scanFiles, parse_log_file]

/-- C6: the aggregator exits 1 with a diagnostic on the error stream iff no
directory entry matches the naming convention or no matched file produces a
record; otherwise it prints the report to stdout and exits 0. -/
theorem aggregator_exit_iff (dirFiles : List (String × Except String String)) :
    (((aggMain dirFiles).exitCode = 1 ∧ (aggMain dirFiles).stderr ≠ [])
        ↔ (matchedFiles dirFiles = []
            ∨ (scanFiles (matchedFiles dirFiles)).1 = []))
      ∧ ((scanFiles (matchedFiles dirFiles)).1 ≠ [] →
          aggMain dirFiles
            = ⟨0, report (scanFiles (matchedFiles dirFiles)).1,
                (scanFiles (matchedFiles dirFiles)).2⟩) := by
  unfold aggMain
  rcases hm : matchedFiles dirFiles with _ | ⟨f, fs⟩
  · simp [scanFiles]
  · rcases hs : (scanFiles (f :: fs)).1 with _ | ⟨r, rs⟩
    · simp [List.isEmpty_iff, hs]
    · simp [List.isEmpty_iff, hs]

/-- Witness for C6 on a directory holding one well-formed log file. -/
theorem aggregator_exit_iff_witness :
    aggMain [("behavior_log_2_5.log",
        .ok "Total success trials: 8\nTotal trials: 10\nSuccess rate: 80.00")]
      = ⟨0,
         report (scanFiles (matchedFiles [("behavior_log_2_5.log",
           .ok "Total success trials: 8\nTotal trials: 10\nSuccess rate: 80.00")])).1,
         (scanFiles (matchedFiles [("behavior_log_2_5.log",
           .ok "Total success trials: 8\nTotal trials: 10\nSuccess rate: 80.00")])).2⟩ :=
  (aggregator_exit_iff [("behavior_log_2_5.log",
      .ok "Total success trials: 8\nTotal trials: 10\nSuccess rate: 80.00")]).2
    (by
      have hm : matchedFiles [("behavior_log_2_5.log",
          .ok "Total success trials: 8\nTotal trials: 10\nSuccess rate: 80.00")]
          = [("behavior_log_2_5.log",
              .ok "Total success trials: 8\nTotal trials: 10\nSuccess rate: 80.00")] := by
        unfold matchedFiles
        rw [show List.filter
            (fun f => globMatch f.1)
            [(("behavior_log_2_5.log" : String),
              (.ok "Total success trials: 8\nTotal trials: 10\nSuccess rate: 80.00" :
                Except String String))]
            = [("behavior_log_2_5.log",
                .ok "Total success trials: 8\nTotal trials: 10\nSuccess rate: 80.00")]
          from by simp +decide]
        exact List.mergeSort_singleton _
      rw [hm]
      have h : (scanFiles [(("behavior_log_2_5.log" : String),
          (.ok "Total success trials: 8\nTotal trials: 10\nSuccess rate: 80.00" :
            Except String String))]).1
          = [⟨2, 5, 8, 10, decimalVal ['8', '0', '.', '0', '0']⟩] := rfl
      rw [h]
      exact List.cons_ne_nil _ _)

/-- If every child of one repeat's instance sweep exits 0, the inner loop
invokes every instance in order and reports no failure. -/
theorem runInstances_all_zero (ec : Nat → Nat → Int) (pyExe : String)
    (r : Nat) (I : List Nat) (h : ∀ i ∈ I, ec r i = 0) :
    (runInstances ec pyExe r I).attempted = I.map (fun i => (r, i))
      ∧ (runInstances ec pyExe r I).failCode = none := by
  induction I with
  | nil => simp [runInstances]
  | cons j rest ih =>
    have h0 : ec r j = 0 := h j (List.mem_cons_self j rest)
    have ih2 := ih (fun i hi => h i (List.mem_cons_of_mem j hi))
    simp [runInstances, h0, ih2.1, ih2.2]

/-- Every cell the inner loop attempts is (r, i) with i in the instance
collection. -/
theorem runInstances_mem (ec : Nat → Nat → Int) (pyExe : String)
    (r : Nat) (I : List Nat) (p : Nat × Nat)
    (hp : p ∈ (runInstances ec pyExe r I).attempted) : p.1 = r ∧ p.2 ∈ I := by
  induction I with
  | nil => simp [runInstances] at hp
  | cons j rest ih =>
    by_cases h0 : ec r j = 0
    · simp [runInstances, h0] at hp
      rcases hp with hp | hp
      · simp [hp]
      · have := ih hp
        exact ⟨this.1, List.mem_cons_of_mem j this.2⟩
    · simp [runInstances, h0] at hp
      simp [hp]

/-- If the inner loop reports no failure, every child of the sweep exited
0. -/
theorem runInstances_none_zero (ec : Nat → Nat → Int) (pyExe : String)
    (r : Nat) (I : List Nat)
    (h : (runInstances ec pyExe r I).failCode = none) :
    ∀ i ∈ I, ec r i = 0 := by
  induction I with
  | nil => simp
  | cons j rest ih =>
    by_cases h0 : ec r j = 0
    · simp [runInstances, h0] at h
      intro i hi
      rcases List.mem_cons.mp hi with rfl | hi
      · exact h0
      · exact ih h i hi
    · simp [runInstances, h0] at h

/-- If the inner loop attempted a cell whose child failed, that cell is the
last one attempted, the loop reports that child's exit code, its attempts
are a front segment of the sweep, and the two failure lines were printed. -/
theorem runInstances_fail (ec : Nat → Nat → Int) (pyExe : String)
    (r : Nat) (I : List Nat) (i : Nat)
    (hmem : (r, i) ∈ (runInstances ec pyExe r I).attempted)
    (hne : ec r i ≠ 0) :
    (runInstances ec pyExe r I).attempted.getLast? = some (r, i)
      ∧ (runInstances ec pyExe r I).failCode = some (ec r i)
      ∧ (runInstances ec pyExe r I).attempted <+: I.map (fun i => (r, i))
      ∧ failedMsg (ec r i) ∈ (runInstances ec pyExe r I).output
      ∧ checkMsg r i ∈ (runInstances ec pyExe r I).output := by
  induction I with
  | nil => simp [runInstances] at hmem
  | cons j rest ih =>
    by_cases h0 : ec r j = 0
    · have hij : i ≠ j := fun hij => hne (hij ▸ h0)
      have hstep : runInstances ec pyExe r (j :: rest)
          = ⟨(r, j) :: (runInstances ec pyExe r rest).attempted,
             [runningMsg pyExe r j, loggingMsg r j]
               ++ (runInstances ec pyExe r rest).output,
             (runInstances ec pyExe r rest).failCode⟩ := by
        simp [runInstances, h0]
      rw [hstep] at hmem
      have hmem2 : (r, i) ∈ (runInstances ec pyExe r rest).attempted := by
        rcases List.mem_cons.mp hmem with heq | h
        · exact absurd (Prod.ext_iff.mp heq).2 hij
        · exact h
      have ihr := ih hmem2
      rw [hstep]
      refine ⟨?_, ihr.2.1, ?_, ?_, ?_⟩
      · rw [show ((r, j) :: (runInstances ec pyExe r rest).attempted)
            = [(r, j)] ++ (runInstances ec pyExe r rest).attempted from rfl,
          List.getLast?_append, ihr.1]
        rfl
      · exact List.cons_prefix_cons.mpr ⟨rfl, ihr.2.2.1⟩
      · exact List.mem_append.mpr (Or.inr ihr.2.2.2.1)
      · exact List.mem_append.mpr (Or.inr ihr.2.2.2.2)
    · have hstep : runInstances ec pyExe r (j :: rest)
          = ⟨[(r, j)],
             [runningMsg pyExe r j, loggingMsg r j]
               ++ [failedMsg (ec r j), checkMsg r j],
             some (ec r j)⟩ := by
        simp [runInstances, h0]
      rw [hstep] at hmem
      have hij : i = j := by
        rcases List.mem_cons.mp hmem with heq | h
        · exact (Prod.ext_iff.mp heq).2
        · exact absurd h (List.not_mem_nil _)
      subst hij
      rw [hstep]
      refine ⟨rfl, rfl, ?_, ?_, ?_⟩
      · exact List.cons_prefix_cons.mpr ⟨rfl, List.nil_prefix⟩
      · simp
      · simp

/-- If every child of the whole grid exits 0, the outer loop performs the
full grid in order and reports no failure. -/
theorem runRepeats_all_zero (ec : Nat → Nat → Int) (pyExe : String)
    (I : List Nat) (R : Nat) (rs : List Nat)
    (h : ∀ r ∈ rs, ∀ i ∈ I, ec r i = 0) :
    (runRepeats ec pyExe I R rs).attempted
        = rs.flatMap (fun r => I.map (fun i => (r, i)))
      ∧ (runRepeats ec pyExe I R rs).failCode = none := by
  induction rs with
  | nil => simp [runRepeats]
  | cons r0 rest ih =>
    have hinner := runInstances_all_zero ec pyExe r0 I
      (h r0 (List.mem_cons_self _ _))
    have ihr := ih (fun r hr => h r (List.mem_cons_of_mem _ hr))
    simp [runRepeats, hinner.1, hinner.2, ihr.1, ihr.2, List.flatMap_cons]

/-- If the outer loop attempted a cell whose child failed, that cell is the
last one attempted, the run reports that child's exit code, the attempts are
a front segment of the grid, and the two failure lines were printed. -/
theorem runRepeats_fail (ec : Nat → Nat → Int) (pyExe : String)
    (I : List Nat) (R : Nat) (rs : List Nat) (r i : Nat)
    (hmem : (r, i) ∈ (runRepeats ec pyExe I R rs).attempted)
    (hne : ec r i ≠ 0) :
    (runRepeats ec pyExe I R rs).attempted.getLast? = some (r, i)
      ∧ (runRepeats ec pyExe I R rs).failCode = some (ec r i)
      ∧ (runRepeats ec pyExe I R rs).attempted
          <+: rs.flatMap (fun r => I.map (fun i => (r, i)))
      ∧ failedMsg (ec r i) ∈ (runRepeats ec pyExe I R rs).output
      ∧ checkMsg r i ∈ (runRepeats ec pyExe I R rs).output := by
  induction rs with
  | nil => simp [runRepeats] at hmem
  | cons r0 rest ih =>
    cases hfc : (runInstances ec pyExe r0 I).failCode with
    | some c =>
      have hstep : runRepeats ec pyExe I R (r0 :: rest)
          = ⟨(runInstances ec pyExe r0 I).attempted,
             repeatMsg r0 R :: (runInstances ec pyExe r0 I).output,
             some c⟩ := by
        simp [runRepeats, hfc]
      rw [hstep] at hmem ⊢
      have hr0 : r = r0 := (runInstances_mem ec pyExe r0 I (r, i) hmem).1
      subst hr0
      have hinner := runInstances_fail ec pyExe r I i hmem hne
      rw [hfc] at hinner
      refine ⟨hinner.1, hinner.2.1, ?_, ?_, ?_⟩
      · exact (hinner.2.2.1).trans
          (by rw [List.flatMap_cons]; exact List.prefix_append _ _)
      · exact List.mem_cons_of_mem _ hinner.2.2.2.1
      · exact List.mem_cons_of_mem _ hinner.2.2.2.2
    | none =>
      have hz := runInstances_none_zero ec pyExe r0 I hfc
      have hia := runInstances_all_zero ec pyExe r0 I hz
      have hstep : runRepeats ec pyExe I R (r0 :: rest)
          = ⟨(runInstances ec pyExe r0 I).attempted
               ++ (runRepeats ec pyExe I R rest).attempted,
             (repeatMsg r0 R :: (runInstances ec pyExe r0 I).output)
               ++ (runRepeats ec pyExe I R rest).output,
             (runRepeats ec pyExe I R rest).failCode⟩ := by
        simp [runRepeats, hfc]
      rw [hstep] at hmem ⊢
      have hmem2 : (r, i) ∈ (runRepeats ec pyExe I R rest).attempted := by
        rcases List.mem_append.mp hmem with h | h
        · have hm := runInstances_mem ec pyExe r0 I (r, i) h
          have h0 := hz i hm.2
          rw [← hm.1] at h0
          exact absurd h0 hne
        · exact h
      have ihr := ih hmem2
      refine ⟨?_, ihr.2.1, ?_, ?_, ?_⟩
      · rw [List.getLast?_append, ihr.1]
        rfl
      · rw [List.flatMap_cons, hia.1]
        exact (List.prefix_append_right_inj _).mpr ihr.2.2.1
      · exact List.mem_append.mpr (Or.inr ihr.2.2.2.1)
      · exact List.mem_append.mpr (Or.inr ihr.2.2.2.2)

/-- C1: if every child of the grid exits 0 the Runner exits 0; and whenever
the child invoked for an attempted cell (r, i) exits with a non-zero code,
that cell is the last attempted one (the attempts are a prefix of the grid
order ending at (r, i)), the Runner prints the failing command's log path
and its exit code, and terminates with exactly that code. -/
theorem runner_fail_fast (ec : Nat → Nat → Int) (pyExe : String) (R : Nat)
    (I : List Nat) :
    ((∀ p ∈ gridCells R I, ec p.1 p.2 = 0) → (runnerMain ec pyExe R I).2 = 0)
      ∧ (∀ r i, (r, i) ∈ (runnerMain ec pyExe R I).1.attempted →
          ec r i ≠ 0 →
          (runnerMain ec pyExe R I).1.attempted.getLast? = some (r, i)
            ∧ (runnerMain ec pyExe R I).1.attempted <+: gridCells R I
            ∧ (runnerMain ec pyExe R I).2 = ec r i
            ∧ failedMsg (ec r i) ∈ (runnerMain ec pyExe R I).1.output
            ∧ checkMsg r i ∈ (runnerMain ec pyExe R I).1.output) := by
  constructor
  · intro h
    have h2 : ∀ r ∈ List.range R, ∀ i ∈ I, ec r i = 0 := by
      intro r hr i hi
      refine h (r, i) ?_
      simp only [gridCells, List.mem_flatMap, List.mem_map]
      exact ⟨r, hr, i, hi, rfl⟩
    have hz := runRepeats_all_zero ec pyExe I R (List.range R) h2
    simp [runnerMain, hz.2]
  · intro r i hmem hne
    have hmem2 : (r, i) ∈ (runRepeats ec pyExe I R (List.range R)).attempted :=
      hmem
    have hf := runRepeats_fail ec pyExe I R (List.range R) r i hmem2 hne
    refine ⟨hf.1, hf.2.2.1, ?_, hf.2.2.2.1, hf.2.2.2.2⟩
    simp [runnerMain, hf.2.1]

/-- Witness for C1: an all-zero grid, and a grid whose child at (0, 1)
exits 3. -/
theorem runner_fail_fast_witness :
    (runnerMain (fun _ _ => 0) "python3" 2 [0, 1, 2]).2 = 0
      ∧ (runnerMain (fun r i => if r = 0 ∧ i = 1 then 3 else 0)
            "python3" 2 [0, 1, 2]).2
          = (fun r i => if r = 0 ∧ i = 1 then 3 else 0) 0 1
      ∧ (runnerMain (fun r i => if r = 0 ∧ i = 1 then 3 else 0)
            "python3" 2 [0, 1, 2]).1.attempted.getLast? = some (0, 1) :=
  ⟨(runner_fail_fast (fun _ _ => 0) "python3" 2 [0, 1, 2]).1 (by decide),
   ((runner_fail_fast (fun r i => if r = 0 ∧ i = 1 then 3 else 0)
       "python3" 2 [0, 1, 2]).2 0 1 (by decide) (by decide)).2.2.1,
   ((runner_fail_fast (fun r i => if r = 0 ∧ i = 1 then 3 else 0)
       "python3" 2 [0, 1, 2]).2 0 1 (by decide) (by decide)).1⟩

/-- Code point of a decimal digit character. -/
theorem charOfNat_digit_toNat (d : Nat) (h : d < 10) :
    (Char.ofNat (48 + d)).toNat = 48 + d := by
  interval_cases d <;> decide

/-- A rendered decimal digit satisfies isDigit. -/
theorem charOfNat_digit_isDigit (d : Nat) (h : d < 10) :
    Char.isDigit (Char.ofNat (48 + d)) = true := by
  interval_cases d <;> decide

/-- A decimal rendering is never empty. -/
theorem natDigits_ne_nil (n : Nat) : natDigits n ≠ [] := by
  unfold natDigits
  split
  · simp
  · simp

/-- A decimal rendering consists of digit characters. -/
theorem natDigits_all_digit (n : Nat) :
    ∀ c ∈ natDigits n, Char.isDigit c = true := by
  induction n using Nat.strong_induction_on with
  | _ n ih =>
    unfold natDigits
    split
    · next h =>
      intro c hc
      rw [List.mem_singleton] at hc
      subst hc
      exact charOfNat_digit_isDigit n h
    · next h =>
      intro c hc
      rcases List.mem_append.mp hc with hc | hc
      · exact ih (n / 10) (by omega) c hc
      · rw [List.mem_singleton] at hc
        subst hc
        exact charOfNat_digit_isDigit (n % 10) (Nat.mod_lt _ (by norm_num))

/-- digitsVal of a string extended by one character. -/
theorem digitsVal_append_singleton (xs : List Char) (c : Char) :
    digitsVal (xs ++ [c]) = 10 * digitsVal xs + (c.toNat - 48) := by
  unfold digitsVal
  rw [List.foldl_append]
  rfl

/-- Reading back a decimal rendering returns the rendered number. -/
theorem digitsVal_natDigits (n : Nat) : digitsVal (natDigits n) = n := by
  induction n using Nat.strong_induction_on with
  | _ n ih =>
    unfold natDigits
    split
    · next h =>
      show digitsVal [Char.ofNat (48 + n)] = n
      unfold digitsVal
      simp [charOfNat_digit_toNat n h]
    · next h =>
      rw [digitsVal_append_singleton, ih (n / 10) (by omega),
        charOfNat_digit_toNat (n % 10) (Nat.mod_lt _ (by norm_num))]
      omega

/-- stripLit removes exactly the literal it is given. -/
theorem stripLit_append (l s : List Char) : stripLit l (l ++ s) = some s := by
  induction l with
  | nil => rfl
  | cons c cs ih => simp [stripLit, ih]

/-- takeWhile / dropWhile at the first character failing the predicate. -/
theorem takeWhile_append_stop (p : Char → Bool) (xs : List Char) (y : Char)
    (ys : List Char) (hxs : ∀ x ∈ xs, p x = true) (hy : p y = false) :
    (xs ++ y :: ys).takeWhile p = xs
      ∧ (xs ++ y :: ys).dropWhile p = y :: ys := by
  induction xs with
  | nil => simp [List.takeWhile_cons, List.dropWhile_cons, hy]
  | cons x xs ih =>
    have hx : p x = true := hxs x (List.mem_cons_self _ _)
    have ih2 := ih (fun a ha => hxs a (List.mem_cons_of_mem _ ha))
    simp [List.takeWhile_cons, List.dropWhile_cons, hx, ih2.1, ih2.2]

/-- The file-name pattern matches a runner-produced base name at position 0
and recovers the encoded (repeat, instance) pair. -/
theorem matchFileNameAt_encode (r i : Nat) :
    matchFileNameAt
        (fileNameLit ++ (natDigits r ++ '_' :: (natDigits i ++ dotLogLit)))
      = some (r, i) := by
  unfold matchFileNameAt
  simp only [stripLit_append]
  have h1 := takeWhile_append_stop Char.isDigit (natDigits r) '_'
    (natDigits i ++ dotLogLit) (natDigits_all_digit r) (by decide)
  rw [h1.1, h1.2]
  simp only [List.isEmpty_iff]
  rw [if_neg (natDigits_ne_nil r)]
  have hdot : natDigits i ++ dotLogLit = natDigits i ++ '.' :: "log".toList :=
    rfl
  have h2 := takeWhile_append_stop Char.isDigit (natDigits i) '.'
    ("log".toList) (natDigits_all_digit i) (by decide)
  rw [hdot, h2.1, h2.2]
  rw [if_neg (natDigits_ne_nil i)]
  rw [show ('.' :: "log".toList : List Char) = dotLogLit ++ [] by rfl,
    stripLit_append]
  rw [digitsVal_natDigits, digitsVal_natDigits]

/-- A match at position 0 is the leftmost match. -/
theorem searchFileName_of_match (s : List Char) (v : Nat × Nat)
    (h : matchFileNameAt s = some v) : searchFileName s = some v := by
  cases s with
  | nil => simpa [searchFileName] using h
  | cons c rest => simp [searchFileName, h]

/-- Strings with equal character data are equal. -/
theorem string_eq_of_data_eq (a b : String) (h : a.data = b.data) : a = b := by
  cases a
  cases b
  cases h
  rfl

/-- Character form of a runner-produced log base name. -/
theorem logBaseName_toList (r i : Nat) :
    (logBaseName r i).toList
      = fileNameLit ++ (natDigits r ++ '_' :: (natDigits i ++ dotLogLit)) := by
  show (logBaseName r i).data = _
  simp only [logBaseName, natStr, String.data_append]
  show ("behavior_log_".data ++ natDigits r ++ "_".data ++ natDigits i
      ++ ".log".data) = _
  rw [show ("_".data : List Char) = ['_'] from rfl]
  simp [fileNameLit, dotLogLit]

/-- C9: the Runner visits grid cells with the repeat index outermost in
ascending order and the instances innermost in collection order (on an
all-zero grid the attempted cells are exactly gridCells R I in order), and
the (repeat, instance) identity of a cell is recoverable from its log file's
base name by the aggregator's own file-name search. -/
theorem grid_order_and_name_identity (ec : Nat → Nat → Int) (pyExe : String)
    (R : Nat) (I : List Nat) (r i : Nat) :
    ((∀ p ∈ gridCells R I, ec p.1 p.2 = 0) →
        (runnerMain ec pyExe R I).1.attempted = gridCells R I)
      ∧ searchFileName (logBaseName r i).toList = some (r, i)
      ∧ log_file r i = "/mnt/public/quanlu/" ++ logBaseName r i := by
  refine ⟨?_, ?_, ?_⟩
  · intro h
    have h2 : ∀ a ∈ List.range R, ∀ b ∈ I, ec a b = 0 := by
      intro a ha b hb
      refine h (a, b) ?_
      simp only [gridCells, List.mem_flatMap, List.mem_map]
      exact ⟨a, ha, b, hb, rfl⟩
    exact (runRepeats_all_zero ec pyExe I R (List.range R) h2).1
  · rw [logBaseName_toList]
    exact searchFileName_of_match _ _ (matchFileNameAt_encode r i)
  · apply string_eq_of_data_eq
    simp [log_file, logBaseName, String.data_append, List.append_assoc]

/-- Witness for C9 on a 2 x 1 grid and the name for repeat 12, instance
34. -/
theorem grid_order_and_name_identity_witness :
    (runnerMain (fun _ _ => 0) "python3" 2 [7]).1.attempted = gridCells 2 [7]
      ∧ searchFileName (logBaseName 12 34).toList = some (12, 34) :=
  ⟨(grid_order_and_name_identity (fun _ _ => 0) "python3" 2 [7] 12 34).1
      (by decide),
   (grid_order_and_name_identity (fun _ _ => 0) "python3" 2 [7] 12 34).2.1⟩

/-- flatMap respects pointwise equality of its function on the list. -/
theorem flatMap_congr_fun {α β : Type} (as : List α) (f g : α → List β)
    (h : ∀ a ∈ as, f a = g a) : as.flatMap f = as.flatMap g := by
  induction as with
  | nil => rfl
  | cons a rest ih =>
    rw [List.flatMap_cons, List.flatMap_cons, h a (List.mem_cons_self _ _),
      ih (fun b hb => h b (List.mem_cons_of_mem _ hb))]

/-- An instance's sorted records are a permutation of its filtered
records. -/
theorem instanceRecords_perm (l : List LogResult) (i : Nat) :
    List.Perm (instanceRecords l i) (l.filter (fun r => r.inst = i)) :=
  List.mergeSort_perm _ _

/-- A record listed under instance i has inst = i and comes from the kept
records. -/
theorem mem_instanceRecords (l : List LogResult) (i : Nat) (r : LogResult)
    (h : r ∈ instanceRecords l i) : r.inst = i ∧ r ∈ l := by
  have h2 := (instanceRecords_perm l i).mem_iff.mp h
  rw [List.mem_filter] at h2
  exact ⟨of_decide_eq_true h2.2, h2.1⟩

/-- Concatenating the per-instance blocks over distinct covering keys is a
permutation of the kept records. -/
theorem flatMap_groups_perm (keys : List Nat) (l : List LogResult)
    (hnd : keys.Nodup) (hcov : ∀ r ∈ l, r.inst ∈ keys) :
    List.Perm (keys.flatMap (fun i => instanceRecords l i)) l := by
  induction keys generalizing l with
  | nil =>
    have hl : l = [] := by
      cases l with
      | nil => rfl
      | cons a t =>
        exact absurd (hcov a (List.mem_cons_self _ _)) (List.not_mem_nil _)
    subst hl
    rfl
  | cons k ks ih =>
    rw [List.flatMap_cons]
    have hkk : k ∉ ks := (List.nodup_cons.mp hnd).1
    have hstep : ks.flatMap (fun i => instanceRecords l i)
        = ks.flatMap (fun i =>
            instanceRecords (l.filter (fun r => !decide (r.inst = k))) i) := by
      apply flatMap_congr_fun
      intro a ha
      unfold instanceRecords
      congr 1
      rw [List.filter_filter]
      apply List.filter_congr
      intro x _
      have hak : a ≠ k := fun h => hkk (h ▸ ha)
      by_cases hxa : x.inst = a
      · simp [hxa, hak]
      · simp [hxa]
    have ihp := ih (l.filter (fun r => !decide (r.inst = k)))
      (List.nodup_cons.mp hnd).2
      (by
        intro r hr
        rw [List.mem_filter] at hr
        have hne : r.inst ≠ k := by
          have := hr.2
          simp at this
          exact this
        rcases List.mem_cons.mp (hcov r hr.1) with h | h
        · exact absurd h hne
        · exact h)
    refine List.Perm.trans ?_ (List.filter_append_perm (fun r => decide (r.inst = k)) l)
    rw [hstep]
    exact (instanceRecords_perm l k).append ihp

/-- A constant list is weakly sorted. -/
theorem pairwise_le_of_all_eq (m : List Nat) (k : Nat) (h : ∀ x ∈ m, x = k) :
    List.Pairwise (· ≤ ·) m := by
  induction m with
  | nil => exact List.Pairwise.nil
  | cons x xs ih =>
    refine List.Pairwise.cons ?_ (ih fun y hy => h y (List.mem_cons_of_mem _ hy))
    intro y hy
    rw [h x (List.mem_cons_self _ _), h y (List.mem_cons_of_mem _ hy)]

/-- The grouped instance keys are distinct. -/
theorem sortedInstances_nodup (results : List LogResult) :
    (sortedInstances results).Nodup := by
  unfold sortedInstances
  exact ((List.mergeSort_perm _ _).nodup_iff).mpr
    (List.nodup_dedup _)

/-- Every kept record's instance appears among the keys. -/
theorem sortedInstances_mem (results : List LogResult) (r : LogResult)
    (h : r ∈ results) : r.inst ∈ sortedInstances results := by
  unfold sortedInstances
  rw [List.mem_mergeSort, List.mem_dedup]
  exact List.mem_map_of_mem _ h

/-- The instance keys are in ascending order. -/
theorem sortedInstances_sorted (results : List LogResult) :
    List.Pairwise (· ≤ ·) (sortedInstances results) := by
  have h : List.Pairwise
      (fun a b : Nat => (fun a b : Nat => decide (a ≤ b)) a b = true)
      (sortedInstances results) := by
    unfold sortedInstances
    apply List.sorted_mergeSort
    · intro a b c hab hbc
      simp only [decide_eq_true_eq] at *
      omega
    · intro a b
      simp only [Bool.or_eq_true, decide_eq_true_eq]
      exact Nat.le_total a b
  exact h.imp (fun hab => of_decide_eq_true hab)

/-- The instance keys are strictly increasing. -/
theorem sortedInstances_strict (results : List LogResult) :
    List.Pairwise (· < ·) (sortedInstances results) :=
  List.Sorted.lt_of_le (sortedInstances_sorted results)
    (sortedInstances_nodup results)

/-- Concatenating per-instance blocks over strictly increasing keys yields
ascending instance values. -/
theorem sorted_map_inst_flatMap (keys : List Nat) (l : List LogResult)
    (hlt : List.Pairwise (· < ·) keys) :
    List.Pairwise (· ≤ ·)
      ((keys.flatMap (fun i => instanceRecords l i)).map (fun r => r.inst))
      := by
  induction keys with
  | nil => simp
  | cons k ks ih =>
    rw [List.flatMap_cons, List.map_append, List.pairwise_append]
    refine ⟨?_, ih hlt.of_cons, ?_⟩
    · apply pairwise_le_of_all_eq _ k
      intro x hx
      rcases List.mem_map.mp hx with ⟨r, hr, rfl⟩
      exact (mem_instanceRecords l k r hr).1
    · intro a ha b hb
      rcases List.mem_map.mp ha with ⟨r, hr, rfl⟩
      rcases List.mem_map.mp hb with ⟨r2, hr2, rfl⟩
      rcases List.mem_flatMap.mp hr2 with ⟨j, hj, hrj⟩
      have h1 : r.inst = k := (mem_instanceRecords l k r hr).1
      have h2 : r2.inst = j := (mem_instanceRecords l j r2 hrj).1
      have hkj : k < j := (List.pairwise_cons.mp hlt).1 j hj
      omega

/-- Within one instance's block the repeats are in ascending order. -/
theorem instanceRecords_sorted_rep (l : List LogResult) (i : Nat) :
    List.Pairwise (fun a b : LogResult => a.rep ≤ b.rep)
      (instanceRecords l i) := by
  have h : List.Pairwise
      (fun a b : LogResult =>
        (fun a b : LogResult => decide (a.rep ≤ b.rep)) a b = true)
      (instanceRecords l i) := by
    unfold instanceRecords
    apply List.sorted_mergeSort
    · intro a b c hab hbc
      simp only [decide_eq_true_eq] at *
      omega
    · intro a b
      simp only [Bool.or_eq_true, decide_eq_true_eq]
      exact Nat.le_total a.rep b.rep
  exact h.imp (fun hab => of_decide_eq_true hab)

/-- Filtering the concatenated blocks by one instance returns exactly that
instance's block. -/
theorem filter_flatMap_groups (keys : List Nat) (l : List LogResult) (i : Nat)
    (hnd : keys.Nodup) :
    (keys.flatMap (fun j => instanceRecords l j)).filter
        (fun r => r.inst = i)
      = if i ∈ keys then instanceRecords l i else [] := by
  induction keys with
  | nil => simp
  | cons k ks ih =>
    rw [List.flatMap_cons, List.filter_append, ih (List.nodup_cons.mp hnd).2]
    by_cases hik : i = k
    · subst hik
      have h1 : (instanceRecords l i).filter (fun r => decide (r.inst = i))
          = instanceRecords l i :=
        List.filter_eq_self.mpr
          (fun r hr => decide_eq_true (mem_instanceRecords l i r hr).1)
      have hik2 : i ∉ ks := (List.nodup_cons.mp hnd).1
      simp [h1, hik2]
    · have h1 : (instanceRecords l k).filter (fun r => decide (r.inst = i))
          = [] :=
        List.filter_eq_nil_iff.mpr (fun r hr => by
          have h2 := (mem_instanceRecords l k r hr).1
          simp [h2]
          exact fun h => hik h.symm)
      simp [h1, hik]

/-- C7: the report lists the kept records (as a permutation) grouped by
instance with instance values ascending, and within each instance the
records appear in ascending order of repeat, whatever order the records
were scanned in. -/
theorem report_grouping_sorted (results : List LogResult) :
    List.Perm (reportRecords results) results
      ∧ List.Sorted (· ≤ ·) ((reportRecords results).map (fun r => r.inst))
      ∧ ∀ i, List.Sorted (· ≤ ·)
          (((reportRecords results).filter (fun r => r.inst = i)).map
            (fun r => r.rep)) := by
  refine ⟨?_, ?_, ?_⟩
  · exact flatMap_groups_perm _ _ (sortedInstances_nodup results)
      (fun r hr => sortedInstances_mem results r hr)
  · exact sorted_map_inst_flatMap _ _ (sortedInstances_strict results)
  · intro i
    unfold reportRecords
    rw [filter_flatMap_groups _ _ _ (sortedInstances_nodup results)]
    split
    · exact List.pairwise_map.mpr (instanceRecords_sorted_rep results i)
    · simp
